import Mathlib

/-!
Verification development for the transis client-side ORM layer
(typed attributes, bidirectional associations, identity map, loader,
query collections).

The JavaScript sources are shallowly embedded: JS values become `JSValue`,
the object heap becomes an explicit `World` (references are `Nat`), JS
exceptions become `Except (Err × World)` (the world at throw time rides
along with the error, matching the fact that a JS exception leaves all
mutations made so far in place), and the promise-driven query collection
becomes an explicit state machine.
-/

set_option maxHeartbeats 1000000

/-- A JavaScript scalar value as it appears in attribute payloads. -/
inductive JSValue where
  | undef
  | null
  | bool (b : Bool)
  | num (n : Int)
  | str (s : String)
  deriving DecidableEq

/-- JavaScript truthiness: `undefined`, `null`, `false`, `0` and `""` are
falsy, everything else is truthy.  This is the semantics of `if (v)` and
of `!!v` in the source. -/
def truthy : JSValue → Bool
  | .undef => false
  | .null => false
  | .bool b => b
  | .num n => n != 0
  | .str s => s != ""

/-- `String(v)` for our scalar values (used by the string attribute). -/
def jsToString : JSValue → String
  | .undef => "undefined"
  | .null => "null"
  | .bool b => if b then "true" else "false"
  | .num n => toString n
  | .str s => s

namespace IdentityAttr

/-- `IdentityAttr.coerce` from attrs.js: pass-through. -/
def coerce (v : JSValue) : JSValue := v

end IdentityAttr

namespace BooleanAttr

/-- `BooleanAttr.coerce` from the Transis attrs.js:
`v === undefined ? v : !!v`. -/
def coerce (v : JSValue) : JSValue :=
  if v = .undef then v else .bool (truthy v)

end BooleanAttr

/-- `String.prototype.trim`: strip leading and trailing whitespace. -/
def jsTrim (s : String) : String :=
  ⟨((s.data.dropWhile Char.isWhitespace).reverse.dropWhile Char.isWhitespace).reverse⟩

namespace StringAttr

/-- `StringAttr#coerce` from the Transis attrs.js with the default
`trim: true` option: `String(v)` for non-nullish values, then trim. -/
def coerce (v : JSValue) : JSValue :=
  match v with
  | .undef => .undef
  | .null => .null
  | v => .str (jsTrim (jsToString v))

end StringAttr

/-- Errors raised synchronously by the model layer. -/
inductive Err where
  | missingId
  | identityOverwrite
  | typeMismatch
  | unresolvedClass
  | unknownAssoc
  | fuelOut
  deriving DecidableEq

/-- `sourceState` lifecycle tags. -/
inductive SState where
  | newS
  | emptyS
  | loadedS
  | deletedS
  | notfoundS
  deriving DecidableEq

/-- Association flavor. -/
inductive AType where
  | one
  | many
  deriving DecidableEq

/-- The `klass` slot of an association descriptor: either a direct class
reference (we record its name) or a name to be resolved through the class
registry at access time. -/
inductive KlassRef where
  | direct (c : String)
  | named (s : String)
  deriving DecidableEq

/-- An association descriptor, as built by `Model.hasOne` / `Model.hasMany`:
`{type, name, klass, inverse?, singular}` (`singular` is `pluralize(name, 1)`
and is only meaningful for hasMany). -/
structure Desc where
  dtype : AType
  name : String
  klass : KlassRef
  inverse : Option String
  singular : String := ""
  deriving DecidableEq

/-- A model class: its registered name, proper ancestors (for `instanceof`),
declared attribute converters and association descriptors. -/
structure ClassDef where
  name : String
  ancestors : List String := []
  attrs : List (String × (JSValue → JSValue)) := []
  assocs : List Desc := []

/-- Look up a declared attribute converter by name. -/
def ClassDef.attrByName (cd : ClassDef) (k : String) : Option (JSValue → JSValue) :=
  (cd.attrs.find? (fun kv => kv.1 = k)).map (fun kv => kv.2)

/-- Look up a declared association descriptor by name
(`this.associations[name]`). -/
def ClassDef.assocByName (cd : ClassDef) (k : String) : Option Desc :=
  cd.assocs.find? (fun d => d.name = k)

/-- The class registry `registeredClasses`: name → class. -/
def Reg : Type := String → Option ClassDef

/-- Resolve the `klass` slot of a descriptor, as in `checkAssociatedType`:
a direct class reference resolves to itself, a string is looked up in
`registeredClasses`. -/
def resolveKlass (reg : Reg) : KlassRef → Option String
  | .direct c => some c
  | .named s => if (reg s).isSome then some s else none

/-- `o instanceof K` for model objects: the object's class is `K` or has `K`
among its ancestors. -/
def instanceOf (reg : Reg) (c K : String) : Bool :=
  c = K || (match reg c with
            | some cd => cd.ancestors.contains K
            | none => false)

/-- The mutable state of one model instance: its `__id__`, coerced attribute
slots (`__name__`), the pre-coercion shadow values (`<name>BeforeCoercion`),
hasOne slots, hasMany slots, `__sourceState__` and `__isBusy__`. -/
structure MState where
  id : JSValue := .undef
  slots : String → JSValue := fun _ => .undef
  before : String → JSValue := fun _ => .undef
  one : String → Option Nat := fun _ => none
  many : String → List Nat := fun _ => []
  sourceState : Option SState := none
  isBusy : Bool := false

/-- A fresh instance, as produced by `new SomeModel` with no attributes. -/
def MState.blank : MState := {}

/-- Write a hasOne slot `__name__`. -/
def MState.setOne (o : MState) (n : String) (v : Option Nat) : MState :=
  { o with one := fun k => if k = n then v else o.one k }

/-- Append to a hasMany slot (`this[name].push(m)`). -/
def MState.pushMany (o : MState) (n : String) (m : Nat) : MState :=
  { o with many := fun k => if k = n then o.many k ++ [m] else o.many k }

/-- `occurs x l`: does `x` appear in `l`?  (`indexOf(m) >= 0`). -/
def occurs (x : Nat) : List Nat → Bool
  | [] => false
  | y :: l => if y = x then true else occurs x l

/-- Remove the first occurrence of `x` (`splice(indexOf(m), 1)`). -/
def eraseFirst (x : Nat) : List Nat → List Nat
  | [] => []
  | y :: l => if y = x then l else y :: eraseFirst x l

/-- Number of occurrences of `x` in `l`. -/
def countOcc (x : Nat) : List Nat → Nat
  | [] => 0
  | y :: l => (if y = x then 1 else 0) + countOcc x l

/-- Erase the first occurrence from a hasMany slot. -/
def MState.eraseMany (o : MState) (n : String) (m : Nat) : MState :=
  { o with many := fun k => if k = n then eraseFirst m (o.many k) else o.many k }

/-- Replace a hasMany slot wholesale (`this[__name__] = a`). -/
def MState.setManyList (o : MState) (n : String) (a : List Nat) : MState :=
  { o with many := fun k => if k = n then a else o.many k }

/-- Write a coerced attribute slot together with its pre-coercion shadow. -/
def MState.setAttr (o : MState) (k : String) (coerced raw : JSValue) : MState :=
  { o with
    slots := fun k' => if k' = k then coerced else o.slots k',
    before := fun k' => if k' = k then raw else o.before k' }

/-- The object heap plus the process-wide identity map.  References are
`Nat`s; `klassOf` records each object's (immutable) constructor. -/
structure World where
  heap : Nat → MState
  klassOf : Nat → String
  next : Nat
  idmap : List ((String × JSValue) × Nat)

/-- The world before any instance exists. -/
def World.init : World :=
  { heap := fun _ => MState.blank, klassOf := fun _ => "", next := 0, idmap := [] }

/-- Update one object in place. -/
def World.upd (w : World) (r : Nat) (f : MState → MState) : World :=
  { w with heap := fun n => if n = r then f (w.heap n) else w.heap n }

/-- First binding for (class name, id) in the identity map. -/
def lookupBinding : List ((String × JSValue) × Nat) → String → JSValue → Option Nat
  | [], _, _ => none
  | ((c', i'), r) :: rest, c, i =>
      if c' = c ∧ i' = i then some r else lookupBinding rest c i

namespace IdMap

/-- Modelled from the spec: the identity-map module (`id_map.js`) is imported
by the model source but is not itself among the provided sources.  Spec §4.1
gives its contract: `get(class, id) → instance|undefined`, exact-match on
(class, id). -/
def get (w : World) (c : String) (i : JSValue) : Option Nat :=
  lookupBinding w.idmap c i

/-- Modelled from the spec: `insert(instance)` registers an instance under
its class and current id (spec §4.1); it is called by the `id=` setter. -/
def insert (w : World) (r : Nat) : World :=
  { w with idmap := ((w.klassOf r, (w.heap r).id), r) :: w.idmap }

end IdMap

/-- `new cls` : allocate a fresh blank instance of the class. -/
def allocModel (cls : ClassDef) (w : World) : Nat × World :=
  (w.next,
   { w with
     heap := fun n => if n = w.next then MState.blank else w.heap n,
     klassOf := fun n => if n = w.next then cls.name else w.klassOf n,
     next := w.next + 1 })

/- ### The association engine (model.js lines 18–149)

The source's `hasOneSet` / `hasManyAdd` / `hasManyRemove` take a `sync`
flag: when true they notify the inverse side through `inverseAdded` /
`inverseRemoved`, which update the inverse's local slot with `sync = false`,
so the recursion depth is bounded by one round trip.  We embed this by
writing each body once, parameterized by an optional pair of inverse
callbacks (`none` plays the role of `sync = false`); the public functions
instantiate the callbacks with the real `inverseAdded` / `inverseRemoved`.
This keeps every definition structurally recursive (hence computable by
`rfl` / `decide`). -/
/-- `checkAssociatedType(desc, o)`: resolve the descriptor's class and check
`o instanceof klass`; otherwise throw. -/
def checkAssociatedType (reg : Reg) (desc : Desc) (o : Nat) (w : World) :
    Except (Err × World) Unit :=
  match resolveKlass reg desc.klass with
  | none => .error (.unresolvedClass, w)
  | some k =>
      if instanceOf reg (w.klassOf o) k then .ok () else .error (.typeMismatch, w)

/-- The inverse-notification callbacks threaded through the association
mutators; `none` in place of this structure corresponds to `sync = false`. -/
structure InvCallbacks where
  added : Nat → String → Nat → World → Except (Err × World) World
  removed : Nat → String → Nat → World → Except (Err × World) World

/-- Body of `hasOneSet(desc, v, sync)`: read `prev`, type-check a truthy
`v`, store the slot, then (when sync) detach the previous value's inverse
and attach the new value's inverse. -/
def hasOneSetCore (reg : Reg) (cb : Option InvCallbacks) (self : Nat)
    (desc : Desc) (v : Option Nat) (w : World) : Except (Err × World) World := do
  let prev := (w.heap self).one desc.name
  match v with
  | some o => checkAssociatedType reg desc o w
  | none => pure ()
  let w := w.upd self (fun o => o.setOne desc.name v)
  let w ← match cb, desc.inverse, prev with
    | some c, some inv, some p => c.removed p inv self w
    | _, _, _ => pure w
  match cb, desc.inverse, v with
  | some c, some inv, some o => c.added o inv self w
  | _, _, _ => pure w

/-- Body of `hasManyAdd(desc, models, sync)`: per model, type-check, notify
the inverse when sync, then push onto the collection. -/
def hasManyAddCore (reg : Reg) (cb : Option InvCallbacks) (self : Nat)
    (desc : Desc) : List Nat → World → Except (Err × World) World
  | [], w => .ok w
  | m :: rest, w => do
      checkAssociatedType reg desc m w
      let w ← match cb, desc.inverse with
        | some c, some inv => c.added m inv self w
        | _, _ => pure w
      let w := w.upd self (fun o => o.pushMany desc.name m)
      hasManyAddCore reg cb self desc rest w

/-- Body of `hasManyRemove(desc, models, sync)`: per model, if present,
notify the inverse when sync and splice out the first occurrence. -/
def hasManyRemoveCore (reg : Reg) (cb : Option InvCallbacks) (self : Nat)
    (desc : Desc) : List Nat → World → Except (Err × World) World
  | [], w => .ok w
  | m :: rest, w =>
      if occurs m ((w.heap self).many desc.name) then do
        let w ← match cb, desc.inverse with
          | some c, some inv => c.removed m inv self w
          | _, _ => pure w
        let w := w.upd self (fun o => o.eraseMany desc.name m)
        hasManyRemoveCore reg cb self desc rest w
      else hasManyRemoveCore reg cb self desc rest w

/-- `this.associations[name]` for the object's class. -/
def assocOf (reg : Reg) (c : String) (n : String) : Option Desc :=
  match reg c with
  | some cd => cd.assocByName n
  | none => none

/-- `inverseAdded(name, model)`: update the local side of the association
named `name` on `self` after `model` was added on the inverse side
(`sync = false`, i.e. no further notifications). -/
def inverseAdded (reg : Reg) (self : Nat) (name : String) (model : Nat)
    (w : World) : Except (Err × World) World :=
  match assocOf reg (w.klassOf self) name with
  | none => .error (.unknownAssoc, w)
  | some desc =>
      match desc.dtype with
      | .one => hasOneSetCore reg none self desc (some model) w
      | .many => hasManyAddCore reg none self desc [model] w

/-- `inverseRemoved(name, model)`: update the local side of the association
named `name` on `self` after `model` was removed on the inverse side. -/
def inverseRemoved (reg : Reg) (self : Nat) (name : String) (model : Nat)
    (w : World) : Except (Err × World) World :=
  match assocOf reg (w.klassOf self) name with
  | none => .error (.unknownAssoc, w)
  | some desc =>
      match desc.dtype with
      | .one => hasOneSetCore reg none self desc none w
      | .many => hasManyRemoveCore reg none self desc [model] w

/-- The real inverse callbacks used when `sync = true`. -/
def syncCallbacks (reg : Reg) : InvCallbacks :=
  ⟨inverseAdded reg, inverseRemoved reg⟩

/-- `hasOneSet(desc, v, sync)` (model.js line 82). -/
def hasOneSet (reg : Reg) (self : Nat) (desc : Desc) (v : Option Nat)
    (sync : Bool) (w : World) : Except (Err × World) World :=
  hasOneSetCore reg (bif sync then some (syncCallbacks reg) else none) self desc v w

/-- `hasManyAdd(desc, models, sync)` (model.js line 119). -/
def hasManyAdd (reg : Reg) (self : Nat) (desc : Desc) (models : List Nat)
    (sync : Bool) (w : World) : Except (Err × World) World :=
  hasManyAddCore reg (bif sync then some (syncCallbacks reg) else none) self desc models w

/-- `hasManyRemove(desc, models, sync)` (model.js line 138). -/
def hasManyRemove (reg : Reg) (self : Nat) (desc : Desc) (models : List Nat)
    (sync : Bool) (w : World) : Except (Err × World) World :=
  hasManyRemoveCore reg (bif sync then some (syncCallbacks reg) else none) self desc models w

/-- `for (m of a) { checkAssociatedType(desc, m); }` — the up-front
type-check loop of `hasManySet`. -/
def checkAllTypes (reg : Reg) (desc : Desc) : List Nat → World → Except (Err × World) Unit
  | [], _ => .ok ()
  | m :: rest, w => do
      checkAssociatedType reg desc m w
      checkAllTypes reg desc rest w

/-- `for (m of prev) { inverseRemoved.call(m, desc.inverse, this); }`. -/
def removeEach (reg : Reg) (inv : String) (owner : Nat) :
    List Nat → World → Except (Err × World) World
  | [], w => .ok w
  | m :: rest, w => do
      let w ← inverseRemoved reg m inv owner w
      removeEach reg inv owner rest w

/-- `for (m of a) { inverseAdded.call(m, desc.inverse, this); }`. -/
def addEach (reg : Reg) (inv : String) (owner : Nat) :
    List Nat → World → Except (Err × World) World
  | [], w => .ok w
  | m :: rest, w => do
      let w ← inverseAdded reg m inv owner w
      addEach reg inv owner rest w

/-- `hasManySet(desc, a)` (model.js line 100): type-check every element
first, then (when an inverse is declared) detach the inverses of all
previous members and attach the inverses of all new members, and finally
replace the collection wholesale. -/
def hasManySet (reg : Reg) (self : Nat) (desc : Desc) (a : List Nat)
    (w : World) : Except (Err × World) World := do
  let prev := (w.heap self).many desc.name
  checkAllTypes reg desc a w
  let w ← match desc.inverse with
    | some inv => do
        let w ← removeEach reg inv self prev w
        addEach reg inv self a w
    | none => pure w
  .ok (w.upd self (fun o => o.setManyList desc.name a))

/-- The generated hasOne property setter: `hasOneSet(desc, v, true)`. -/
def setHasOneProp (reg : Reg) (self : Nat) (desc : Desc) (v : Option Nat)
    (w : World) : Except (Err × World) World :=
  hasOneSet reg self desc v true w

/-- The generated `add<Name>` mutator: `hasManyAdd(desc, args, true)`. -/
def addAssoc (reg : Reg) (self : Nat) (desc : Desc) (models : List Nat)
    (w : World) : Except (Err × World) World :=
  hasManyAdd reg self desc models true w

/-- The generated `remove<Name>` mutator: `hasManyRemove(desc, args, true)`. -/
def removeAssoc (reg : Reg) (self : Nat) (desc : Desc) (models : List Nat)
    (w : World) : Except (Err × World) World :=
  hasManyRemove reg self desc models true w

/-- The generated `clear<Name>` mutator: `hasManySet(desc, [])`. -/
def clearAssoc (reg : Reg) (self : Nat) (desc : Desc) (w : World) :
    Except (Err × World) World :=
  hasManySet reg self desc [] w

/- ### The Model class surface (model.js lines 154–452) -/
/-- A raw attribute payload for the source's `Model.load`: a JS object as
an ordered list of key/value pairs (keys are unique in a JS object literal). -/
abbrev Payload : Type := List (String × JSValue)

/-- `attrs["id"]` — first binding for a key (JS object keys are unique). -/
def plookup {α : Type} : List (String × α) → String → Option α
  | [], _ => none
  | (k', v) :: rest, k => if k' = k then some v else plookup rest k

/-- Last binding for a key (what is left in a slot after assigning every
binding in order). -/
def plookupLast {α : Type} : List (String × α) → String → Option α
  | [], _ => none
  | (k', v) :: rest, k =>
      match plookupLast rest k with
      | some v' => some v'
      | none => if k' = k then some v else none

/-- The `id=` setter (model.js line 417): throw if the current `__id__` is
truthy, otherwise store the id and insert the instance into the identity
map. -/
def Model.setId (r : Nat) (idv : JSValue) (w : World) : Except (Err × World) World :=
  if truthy ((w.heap r).id) then .error (.identityOverwrite, w)
  else
    let w := w.upd r (fun o => { o with id := idv })
    .ok (IdMap.insert w r)

/-- Assign one payload key through the class's property surface, as the
loop `if (k in model) { model[k] = attrs[k]; }` does:
* a declared attribute key goes through the attr setter (coerce + shadow);
* a declared hasOne key goes through `hasOneSet(desc, v, true)` — a truthy
  scalar is not an instance of the target class, so the type check throws,
  while a falsy scalar stores an empty slot (and detaches a previous value);
* a declared hasMany key goes through `hasManySet`, whose `for (m of a)`
  over a non-array scalar throws a TypeError;
* any other key is not a property of the model and is skipped. -/
def setProp (reg : Reg) (cls : ClassDef) (r : Nat) (k : String) (v : JSValue)
    (w : World) : Except (Err × World) World :=
  match cls.attrByName k with
  | some conv => .ok (w.upd r (fun o => o.setAttr k (conv v) v))
  | none =>
      match cls.assocByName k with
      | some desc =>
          match desc.dtype with
          | .one =>
              if truthy v then
                match resolveKlass reg desc.klass with
                | none => .error (.unresolvedClass, w)
                | some _ => .error (.typeMismatch, w)
              else hasOneSet reg r desc none true w
          | .many => .error (.typeMismatch, w)
      | none => .ok w

/-- `for (let k in attrs) { if (k in model) { model[k] = attrs[k]; } }`. -/
def setProps (reg : Reg) (cls : ClassDef) (r : Nat) :
    Payload → World → Except (Err × World) World
  | [], w => .ok w
  | (k, v) :: rest, w => do
      let w ← setProp reg cls r k v w
      setProps reg cls r rest w

/-- `Model.load(attrs)` (model.js line 357): require a truthy `id`, fetch
the canonical instance from the identity map or create a fresh one, assign
every non-`id` payload key that is a property of the model, set the id if
it is still undefined, and mark the instance LOADED and not busy. -/
def Model.load (reg : Reg) (cls : ClassDef) (p : Payload) (w : World) :
    Except (Err × World) (Nat × World) :=
  let idv := (plookup p "id").getD .undef
  if truthy idv = false then .error (.missingId, w)
  else
    let rw := match IdMap.get w cls.name idv with
      | some r => (r, w)
      | none => allocModel cls w
    let r := rw.1
    do
      let w ← setProps reg cls r (p.filter (fun kv => !(kv.1 = "id"))) rw.2
      let w ← if (w.heap r).id = .undef then Model.setId r idv w else .ok w
      .ok (r, w.upd r (fun o => { o with sourceState := some .loadedS, isBusy := false }))

/-- `Model.empty(id)` (model.js line 198): `new this({id: id})` — the
constructor assigns `id` through the `id=` setter (inserting into the
identity map) — then mark the instance EMPTY. -/
def Model.empty (cls : ClassDef) (idv : JSValue) (w : World) :
    Except (Err × World) (Nat × World) :=
  let rw := allocModel cls w
  do
    let w ← Model.setId rw.1 idv rw.2
    .ok (rw.1, w.upd rw.1 (fun o => { o with sourceState := some .emptyS }))

/-- `Model.local(id)` (model.js line 388): the identity-mapped instance if
present, else an EMPTY placeholder; never touches the mapper. -/
def Model.local (cls : ClassDef) (idv : JSValue) (w : World) :
    Except (Err × World) (Nat × World) :=
  match IdMap.get w cls.name idv with
  | some r => .ok (r, w)
  | none => Model.empty cls idv w

/- ### The association-resolving loader (spec §4.5)

The version of `Model.load` that resolves association payloads is exercised
at length by the model test suite, but the model source provided here
(part_002) predates it: its `load` only assigns plain properties.  The
definitions below are therefore modelled from the spec (§4.5, steps 1–6),
using the in-source association machinery (`hasOneSet`, `hasManySet`) for
the actual wiring, and `Model.local` / `Model.empty` for id resolution.
Recursion over nested payloads is bounded by a fuel argument that the
wrapper computes from the payload size (always sufficient for the finite
payloads JS can build). -/
/-- A raw payload value: a scalar, a nested payload object, or an array. -/
inductive PVal where
  | v (x : JSValue)
  | obj (fields : List (String × PVal))
  | arr (xs : List PVal)

/-- The scalar content of a payload value (`undefined` for objects/arrays,
which never reach a scalar position in a well-formed payload). -/
def PVal.scalarD : PVal → JSValue
  | .obj _ => .undef
  | .arr _ => .undef
  | .v x => x

/- Total node count of a payload value / payload, used to compute fuel. -/
mutual
def PVal.size : PVal → Nat
  | .v _ => 1
  | .obj fs => 1 + PVal.sizeFields fs
  | .arr xs => 1 + PVal.sizeList xs
def PVal.sizeFields : List (String × PVal) → Nat
  | [] => 1
  | (_, p) :: rest => 1 + PVal.size p + PVal.sizeFields rest
def PVal.sizeList : List PVal → Nat
  | [] => 1
  | p :: rest => 1 + PVal.size p + PVal.sizeList rest
end

/-- Modelled from the spec: resolve the declared target class of an
association to its `ClassDef` through the class registry. -/
def resolveTargetCls (reg : Reg) : KlassRef → Option ClassDef
  | .direct c => reg c
  | .named s => reg s

/-- Modelled from the spec: the foreign-key key forms of spec §4.5 step 4 —
`<name>Id` / `<name>_id` for a hasOne association, and the id-list key
guessed from the descriptor's singular name (`<singular>Ids` /
`<singular>_ids`) for a hasMany association. -/
def fkAssoc (cls : ClassDef) (k : String) : Option Desc :=
  cls.assocs.find? (fun d =>
    match d.dtype with
    | .one => k = d.name ++ "Id" || k = d.name ++ "_id"
    | .many => k = d.singular ++ "Ids" || k = d.singular ++ "_ids")

mutual

/-- Modelled from the spec: `load` as described in §4.5 — require a truthy
`id` (step 1); fetch or create the canonical instance (step 2); assign every
key naming a declared attribute or association through the normal property
setter, ignoring unrecognized keys except for the foreign-key forms
(steps 3–4); hasMany membership is replaced wholesale via `hasManySet`
(step 5); set the id if still undefined and mark LOADED / not busy
(step 6). -/
def loadSpec (reg : Reg) : Nat → ClassDef → List (String × PVal) → World →
    Except (Err × World) (Nat × World)
  | 0, _, _, w => .error (.fuelOut, w)
  | fuel+1, cls, fields, w =>
      let idv := ((plookup fields "id").map PVal.scalarD).getD .undef
      if truthy idv = false then .error (.missingId, w)
      else
        let rw := match IdMap.get w cls.name idv with
          | some r => (r, w)
          | none => allocModel cls w
        let r := rw.1
        do
          let w ← loadFields reg fuel cls r fields fields rw.2
          let w ← if (w.heap r).id = .undef then Model.setId r idv w else .ok w
          .ok (r, w.upd r (fun o => { o with sourceState := some .loadedS, isBusy := false }))

/-- Modelled from the spec: the key-assignment loop of §4.5 step 3 (`all`
is the complete payload, kept around for the "association's own key is
absent" test of step 4). -/
def loadFields (reg : Reg) : Nat → ClassDef → Nat → List (String × PVal) →
    List (String × PVal) → World → Except (Err × World) World
  | 0, _, _, _, _, w => .error (.fuelOut, w)
  | fuel+1, cls, r, all, fields, w =>
      match fields with
      | [] => .ok w
      | (k, v) :: rest => do
          let w ← loadKey reg fuel cls r all k v w
          loadFields reg fuel cls r all rest w

/-- Modelled from the spec: assign one payload key (§4.5 steps 3–4).
`id` is handled by the caller; a declared attribute goes through the attr
setter; a declared hasOne association accepts a nested payload or a bare id
and is assigned through the hasOne property setter; a declared hasMany
association accepts an array of nested payloads and/or bare ids and is
assigned through the hasMany property setter (wholesale replacement); a
foreign-key-style key is honored only when the association's own key is
absent from the payload; anything else is silently ignored. -/
def loadKey (reg : Reg) : Nat → ClassDef → Nat → List (String × PVal) → String → PVal →
    World → Except (Err × World) World
  | 0, _, _, _, _, _, w => .error (.fuelOut, w)
  | fuel+1, cls, r, all, k, v, w =>
      if k = "id" then .ok w
      else
        match cls.attrByName k with
        | some conv => .ok (w.upd r (fun o => o.setAttr k (conv v.scalarD) v.scalarD))
        | none =>
            match cls.assocByName k with
            | some desc =>
                (match desc.dtype with
                 | .one => do
                     let mw ← resolveOne reg fuel desc v w
                     hasOneSet reg r desc (some mw.1) true mw.2
                 | .many =>
                     match v with
                     | .arr vs => do
                         let msw ← resolveList reg fuel desc vs w
                         hasManySet reg r desc msw.1 msw.2
                     | _ => .error (.typeMismatch, w))
            | none =>
                match fkAssoc cls k with
                | some desc =>
                    if (plookup all desc.name).isSome then .ok w
                    else
                      (match desc.dtype with
                       | .one => do
                           let mw ← resolveOne reg fuel desc v w
                           hasOneSet reg r desc (some mw.1) true mw.2
                       | .many =>
                           match v with
                           | .arr vs => do
                               let msw ← resolveList reg fuel desc vs w
                               hasManySet reg r desc msw.1 msw.2
                           | _ => .error (.typeMismatch, w))
                | none => .ok w

/-- Modelled from the spec: resolve one association value (§4.5 step 4) —
a nested raw payload object is recursively loaded into the target class,
a bare id is resolved via `Model.local` (EMPTY placeholder when unseen). -/
def resolveOne (reg : Reg) : Nat → Desc → PVal → World → Except (Err × World) (Nat × World)
  | 0, _, _, w => .error (.fuelOut, w)
  | fuel+1, desc, v, w =>
      match resolveTargetCls reg desc.klass with
      | none => .error (.unresolvedClass, w)
      | some tcls =>
          match v with
          | .obj fs => loadSpec reg fuel tcls fs w
          | pv => Model.local tcls pv.scalarD w

/-- Modelled from the spec: resolve an array of association values for a
hasMany association, each element being a nested payload or a bare id. -/
def resolveList (reg : Reg) : Nat → Desc → List PVal → World →
    Except (Err × World) (List Nat × World)
  | 0, _, _, w => .error (.fuelOut, w)
  | fuel+1, desc, vs, w =>
      match vs with
      | [] => .ok ([], w)
      | v :: rest => do
          let mw ← resolveOne reg fuel desc v w
          let msw ← resolveList reg fuel desc rest mw.2
          .ok (mw.1 :: msw.1, msw.2)

end

/- ### The Query Collection (query_array.js)

`QueryArray#query` drives an in-flight mapper promise; we embed it as an
explicit state machine.  `calls` is the trace of options dispatched to the
external mapper (`_callMapper('query', [opts])` — the mapper itself is the
external dependency of spec §6, so a dispatch is recorded rather than
interpreted, and the fulfilled contents stand for `loadAll`'s result).
`contReg` records whether a `.then` continuation has been chained on the
current in-flight promise (the `if (!this.__queued__)` branch);
because that continuation is chained with a one-argument `.then`, it runs
only when the in-flight promise is fulfilled.  `promise` is the settled
state of `__promise__`, which `then`/`catch` forward to; it starts out
fulfilled (`Promise.resolve()`). -/
/-- The observable state of `this.__promise__`. -/
inductive PromState where
  | pending
  | fulfilledP
  | rejectedP (e : Nat)
  deriving DecidableEq

/-- How the in-flight mapper promise settles: fulfilled with the loaded
models, or rejected with an error value. -/
inductive SettleRes where
  | fulfilled (objs : List Nat)
  | rejected (e : Nat)

/-- The state of one `QueryArray`: contents, `__isBusy__`, `__queued__`,
whether a continuation is chained on the in-flight promise, `__error__`,
the state of `__promise__`, and the trace of mapper dispatches. -/
structure QueryArray where
  elems : List Nat
  isBusy : Bool
  queued : Option Nat
  contReg : Bool
  error : Option Nat
  promise : PromState
  calls : List Nat
  deriving DecidableEq

/-- A freshly built query array (`Model.buildQuery`): idle, empty, with
`__promise__ = Promise.resolve()`. -/
def QueryArray.init : QueryArray :=
  { elems := []
    isBusy := false
    queued := none
    contReg := false
    error := none
    promise := .fulfilledP
    calls := [] }

/-- `QueryArray#query(opts)` (query_array.js line 479), synchronous part:
while busy, chain a continuation once and capture `opts` as the (single,
latest-wins) queued call; while idle, become busy and dispatch `opts` to
the mapper. -/
def QueryArray.query (o : Nat) (s : QueryArray) : QueryArray :=
  if s.isBusy then
    { s with contReg := true, queued := some o }
  else
    { s with isBusy := true, promise := .pending, calls := s.calls ++ [o] }

/-- The in-flight mapper promise settles.  Fulfillment runs the success
handler (replace contents with the loaded models, clear busy and error),
then — the chained continuation being a one-argument `.then` — re-issues
the queued call, if one was chained, and deletes `__queued__`.  Rejection
runs the failure handler (clear busy, store the error, re-throw so
`__promise__` rejects); the chained continuation is skipped, so the queued
options survive undispatched. -/
def QueryArray.settle (res : SettleRes) (s : QueryArray) : QueryArray :=
  match res with
  | .fulfilled objs =>
      let s1 := { s with
        elems := objs
        isBusy := false
        error := none
        promise := .fulfilledP }
      if s.contReg then
        match s1.queued with
        | some o =>
            let s2 := QueryArray.query o { s1 with contReg := false }
            { s2 with queued := none }
        | none => { s1 with contReg := false }
      else s1
  | .rejected e =>
      { s with
        isBusy := false
        error := some e
        promise := .rejectedP e
        contReg := false }

/-- `QueryArray#then` / `#catch` forward to the current `__promise__`; this
is the completion signal downstream consumers observe. -/
def QueryArray.thenSignal (s : QueryArray) : PromState := s.promise

/- ### Concrete model classes used by witnesses and counterexamples -/
/-- The `BasicModel` test class: plain string/identity attributes. -/
def BasicModel : ClassDef :=
  { name := "BasicModel",
    attrs := [("str", StringAttr.coerce), ("num", IdentityAttr.coerce)] }

/-- A registry containing only `BasicModel`. -/
def regBasic : Reg := fun s => if s = "BasicModel" then some BasicModel else none

/-- A world holding one instance whose id was set to `0`. -/
def wIdZero : World :=
  { World.init with heap := fun _ => { MState.blank with id := .num 0 } }

/-- `Foo.hasOne('bar', 'BarA', {inverse: 'foo'})`. -/
def descFooBar : Desc := { dtype := .one, name := "bar", klass := .named "BarA", inverse := some "foo" }

/-- `Bar.hasOne('foo', 'FooA', {inverse: 'bar'})`. -/
def descBarFoo : Desc := { dtype := .one, name := "foo", klass := .named "FooA", inverse := some "bar" }

/-- A class with a hasOne association whose inverse is a hasOne. -/
def FooA : ClassDef := { name := "FooA", assocs := [descFooBar] }

/-- The inverse class of `FooA`. -/
def BarA : ClassDef := { name := "BarA", assocs := [descBarFoo] }

/-- Registry containing `FooA` and `BarA`. -/
def regA : Reg :=
  fun s => if s = "FooA" then some FooA else if s = "BarA" then some BarA else none

/-- A world with instance 0 of class `FooA` and instance 1 of class `BarA`. -/
def wAB : World :=
  { heap := fun _ => MState.blank,
    klassOf := fun n => if n = 0 then "FooA" else "BarA",
    next := 2, idmap := [] }

/-- `Foo.hasMany('bars', 'BarM', {inverse: 'foos'})`. -/
def descFooBars : Desc :=
  { dtype := .many, name := "bars", klass := .named "BarM",
    inverse := some "foos", singular := "bar" }

/-- `Bar.hasMany('foos', 'FooM', {inverse: 'bars'})`. -/
def descBarFoos : Desc :=
  { dtype := .many, name := "foos", klass := .named "FooM",
    inverse := some "bars", singular := "foo" }

/-- A class with a hasMany association whose inverse is a hasMany. -/
def FooM : ClassDef := { name := "FooM", assocs := [descFooBars] }

/-- The inverse class of `FooM`. -/
def BarM : ClassDef := { name := "BarM", assocs := [descBarFoos] }

/-- Registry containing `FooM` and `BarM`. -/
def regM : Reg :=
  fun s => if s = "FooM" then some FooM else if s = "BarM" then some BarM else none

/-- A world with instance 0 of class `FooM` and instance 1 of class `BarM`. -/
def wM : World :=
  { heap := fun _ => MState.blank,
    klassOf := fun n => if n = 0 then "FooM" else "BarM",
    next := 2, idmap := [] }

/-- `Foo.hasMany('bars', 'BarS', {inverse: 'foo'})`. -/
def descFooBarsS : Desc :=
  { dtype := .many, name := "bars", klass := .named "BarS",
    inverse := some "foo", singular := "bar" }

/-- `Bar.hasOne('foo', 'FooS', {inverse: 'bars'})`. -/
def descBarFooS : Desc :=
  { dtype := .one, name := "foo", klass := .named "FooS", inverse := some "bars" }

/-- A class with a hasMany association whose inverse is a hasOne. -/
def FooS : ClassDef := { name := "FooS", assocs := [descFooBarsS] }

/-- The inverse class of `FooS`. -/
def BarS : ClassDef := { name := "BarS", assocs := [descBarFooS] }

/-- Registry containing `FooS` and `BarS`. -/
def regS : Reg :=
  fun s => if s = "FooS" then some FooS else if s = "BarS" then some BarS else none

/-- A world where Foo 0 already owns Bar 1 (`bars = [1]`, `1.foo = 0`);
Bar 2 is unattached. -/
def wS : World :=
  { heap := fun n =>
      if n = 0 then { MState.blank with many := fun k => if k = "bars" then [1] else [] }
      else if n = 1 then { MState.blank with one := fun k => if k = "foo" then some 0 else none }
      else MState.blank,
    klassOf := fun n => if n = 0 then "FooS" else "BarS",
    next := 3, idmap := [] }

/- ### C2: association payload forms (spec-modelled loader) -/
/-- Run the spec-modelled loader with fuel computed from the payload size
(one fuel unit is consumed per call, and the call count is linear in the
payload's node count, so this is always sufficient). -/
def loadSpecRun (reg : Reg) (cls : ClassDef) (fields : List (String × PVal))
    (w : World) : Except (Err × World) (Nat × World) :=
  loadSpec reg (4 * PVal.sizeFields fields + 16) cls fields w

/-- `Author.hasMany('posts', 'Post', {inverse: 'author'})`. -/
def descAuthorPosts : Desc :=
  { dtype := .many, name := "posts", klass := .named "Post",
    inverse := some "author", singular := "post" }

/-- `Post.hasOne('author', 'Author', {inverse: 'posts'})`. -/
def descPostAuthor : Desc :=
  { dtype := .one, name := "author", klass := .named "Author", inverse := some "posts" }

/-- `Post.hasMany('tags', 'Tag', {inverse: 'posts'})`. -/
def descPostTags : Desc :=
  { dtype := .many, name := "tags", klass := .named "Tag",
    inverse := some "posts", singular := "tag" }

/-- `Tag.hasMany('posts', 'Post', {inverse: 'tags'})`. -/
def descTagPosts : Desc :=
  { dtype := .many, name := "posts", klass := .named "Post",
    inverse := some "tags", singular := "post" }

/-- The `Author` test class. -/
def AuthorCls : ClassDef :=
  { name := "Author",
    attrs := [("first", StringAttr.coerce), ("last", StringAttr.coerce)],
    assocs := [descAuthorPosts] }

/-- The `Post` test class. -/
def PostCls : ClassDef :=
  { name := "Post",
    attrs := [("title", StringAttr.coerce), ("body", StringAttr.coerce)],
    assocs := [descPostAuthor, descPostTags] }

/-- The `Tag` test class. -/
def TagCls : ClassDef :=
  { name := "Tag",
    attrs := [("name", StringAttr.coerce)],
    assocs := [descTagPosts] }

/-- Registry with `Post`, `Author` and `Tag`. -/
def regPAT : Reg :=
  fun s =>
    if s = "Post" then some PostCls
    else if s = "Author" then some AuthorCls
    else if s = "Tag" then some TagCls
    else none

/-- Chain loads through the spec-modelled loader, dropping the error case
(used to phrase concrete load scenarios). -/
def runLoad (cls : ClassDef) (fields : List (String × PVal)) :
    Option (Nat × World) → Option (Nat × World)
  | none => none
  | some (_, w) => (loadSpecRun regPAT cls fields w).toOption

/-- The initial loader state. -/
def runStart : Option (Nat × World) := some (0, World.init)

/-! ### Theorems -/

/- ### Small evaluation lemmas for the heap -/
theorem World.upd_klassOf (w : World) (r : Nat) (f : MState → MState) :
    (w.upd r f).klassOf = w.klassOf := rfl

theorem World.upd_idmap (w : World) (r : Nat) (f : MState → MState) :
    (w.upd r f).idmap = w.idmap := rfl

theorem World.upd_next (w : World) (r : Nat) (f : MState → MState) :
    (w.upd r f).next = w.next := rfl

theorem World.heap_upd_self (w : World) (r : Nat) (f : MState → MState) :
    (w.upd r f).heap r = f (w.heap r) := by
  simp [World.upd]

theorem World.heap_upd_ne (w : World) (r x : Nat) (f : MState → MState)
    (h : x ≠ r) : (w.upd r f).heap x = w.heap x := by
  simp [World.upd, h]

/- ### C9: boolean attribute coercion -/
/-- C9: for the built-in boolean attribute type, coercing `undefined`
returns `undefined` unchanged, and coercing any other value returns its
truthiness (`!!v`). -/
theorem C9_boolean_coerce :
    BooleanAttr.coerce .undef = .undef ∧
    ∀ v : JSValue, v ≠ .undef → BooleanAttr.coerce v = .bool (truthy v) := by
  refine ⟨rfl, ?_⟩
  intro v h
  simp [BooleanAttr.coerce, h]

/-- Witness for C9 at the concrete value `0`. -/
theorem C9_boolean_coerce_witness :
    (JSValue.num 0 ≠ .undef) ∧ BooleanAttr.coerce (.num 0) = .bool (truthy (.num 0)) :=
  ⟨by decide, C9_boolean_coerce.2 (.num 0) (by decide)⟩

/- ### C10: the id-immutability guard tests truthiness -/
/-- C10: assigning `id` raises the overwrite error iff the current `__id__`
is truthy; a successful assignment (truthy check false, e.g. an existing id
of `0`) stores the new id and inserts the instance into the identity map. -/
theorem C10_id_guard_truthy (w : World) (r : Nat) (idv : JSValue) :
    (truthy ((w.heap r).id) = true → Model.setId r idv w = .error (.identityOverwrite, w)) ∧
    (truthy ((w.heap r).id) = false →
      ∃ w', Model.setId r idv w = .ok w' ∧ (w'.heap r).id = idv ∧
        w'.idmap = ((w.klassOf r, idv), r) :: w.idmap) := by
  constructor
  · intro h
    simp [Model.setId, h]
  · intro h
    refine ⟨IdMap.insert (w.upd r (fun o => { o with id := idv })) r, ?_, ?_, ?_⟩
    · simp [Model.setId, h]
    · simp [IdMap.insert, World.upd]
    · simp [IdMap.insert, World.upd]

/-- Witness for C10: an instance whose id is `0` has a falsy id, so its id
is silently reassigned to `7` and the instance is re-inserted into the
identity map. -/
theorem C10_id_guard_truthy_witness :
    truthy ((wIdZero.heap 0).id) = false ∧
    (∃ w', Model.setId 0 (.num 7) wIdZero = .ok w' ∧ (w'.heap 0).id = .num 7 ∧
      w'.idmap = ((wIdZero.klassOf 0, .num 7), 0) :: wIdZero.idmap) :=
  ⟨by decide, (C10_id_guard_truthy wIdZero 0 (.num 7)).2 (by decide)⟩

/- ### C7: load without an id -/
/-- C7: a payload lacking an `id` key makes `Model.load` throw the
missing-identity error synchronously, leaving the world untouched (no
instance is created or registered). -/
theorem C7_load_missing_id (reg : Reg) (cls : ClassDef) (p : Payload) (w : World)
    (h : plookup p "id" = none) :
    Model.load reg cls p w = .error (.missingId, w) := by
  simp [Model.load, h, Option.getD, truthy]

/-- Witness for C7: `BasicModel.load({str: 's'})` raises. -/
theorem C7_load_missing_id_witness :
    plookup ([("str", JSValue.str "s")] : Payload) "id" = none ∧
    Model.load regBasic BasicModel [("str", JSValue.str "s")] World.init =
      .error (.missingId, World.init) :=
  ⟨by decide, C7_load_missing_id regBasic BasicModel _ World.init (by decide)⟩

/- ### C6: query coalescing -/
/-- C6 (amended): with three `query` calls — the first from idle, the next
two while busy — only the first is dispatched immediately; when the
in-flight request is *fulfilled*, exactly the last busy-time call is
dispatched next (the middle one is dropped), for two mapper invocations in
total; when the in-flight request is *rejected*, the chained continuation
is skipped, so no queued call is dispatched and the mapper is invoked only
once. -/
theorem C6_query_coalescing (o1 o2 o3 e : Nat) (objs : List Nat) :
    (QueryArray.settle (.fulfilled objs)
      (QueryArray.query o3 (QueryArray.query o2 (QueryArray.query o1 QueryArray.init)))).calls
      = [o1, o3] ∧
    (QueryArray.settle (.rejected e)
      (QueryArray.query o3 (QueryArray.query o2 (QueryArray.query o1 QueryArray.init)))).calls
      = [o1] :=
  ⟨rfl, rfl⟩

/-- Counterexample for C6 as stated: when the in-flight request settles by
*rejection*, the mapper has been invoked exactly once, not twice, and the
queued call was never dispatched. -/
theorem C6_query_coalescing_cx :
    (QueryArray.settle (.rejected 7)
      (QueryArray.query 3 (QueryArray.query 2 (QueryArray.query 1 QueryArray.init)))).calls
      = [1] ∧
    ¬ (QueryArray.settle (.rejected 7)
        (QueryArray.query 3 (QueryArray.query 2 (QueryArray.query 1 QueryArray.init)))).calls.length
        = 2 := by
  decide

/- ### C8: rejection handling of a query -/
/-- C8: when the dispatched mapper call rejects, the collection returns to
the idle state, the rejection reason is stored on `error`, the rejection is
re-raised through the completion signal that `then`/`catch` forward to, and
the collection's contents are not replaced. -/
theorem C8_query_rejection (s : QueryArray) (o e : Nat) (h : s.isBusy = false) :
    (QueryArray.settle (.rejected e) (QueryArray.query o s)).isBusy = false ∧
    (QueryArray.settle (.rejected e) (QueryArray.query o s)).error = some e ∧
    (QueryArray.settle (.rejected e) (QueryArray.query o s)).elems = s.elems ∧
    (QueryArray.settle (.rejected e) (QueryArray.query o s)).thenSignal = .rejectedP e := by
  simp [QueryArray.query, QueryArray.settle, QueryArray.thenSignal, h]

/-- Witness for C8 on a fresh query array. -/
theorem C8_query_rejection_witness :
    QueryArray.init.isBusy = false ∧
    ((QueryArray.settle (.rejected 42) (QueryArray.query 1 QueryArray.init)).isBusy = false ∧
     (QueryArray.settle (.rejected 42) (QueryArray.query 1 QueryArray.init)).error = some 42 ∧
     (QueryArray.settle (.rejected 42) (QueryArray.query 1 QueryArray.init)).elems = QueryArray.init.elems ∧
     (QueryArray.settle (.rejected 42) (QueryArray.query 1 QueryArray.init)).thenSignal = .rejectedP 42) :=
  ⟨rfl, C8_query_rejection QueryArray.init 1 42 rfl⟩

/- ### List helpers for membership reasoning -/
theorem occurs_append_self (x : Nat) (l : List Nat) : occurs x (l ++ [x]) = true := by
  induction l with
  | nil => simp [occurs]
  | cons y l ih =>
      by_cases h : y = x <;> simp [occurs, h, ih]

theorem eraseFirst_append_self (x : Nat) (l : List Nat) (h : occurs x l = false) :
    eraseFirst x (l ++ [x]) = l := by
  induction l with
  | nil => simp [eraseFirst]
  | cons y l ih =>
      by_cases hyx : y = x
      · simp [occurs, hyx] at h
      · simp [occurs, hyx] at h
        simp [eraseFirst, hyx, ih h]

theorem countOcc_append (x : Nat) (l1 l2 : List Nat) :
    countOcc x (l1 ++ l2) = countOcc x l1 + countOcc x l2 := by
  induction l1 with
  | nil => simp [countOcc]
  | cons y l ih => simp [countOcc, ih]; omega

theorem countOcc_of_occurs_false (x : Nat) (l : List Nat) (h : occurs x l = false) :
    countOcc x l = 0 := by
  induction l with
  | nil => simp [countOcc]
  | cons y l ih =>
      by_cases hyx : y = x
      · simp [occurs, hyx] at h
      · simp [occurs, hyx] at h
        simp [countOcc, hyx, ih h]

/- ### C3: hasOne inverse symmetry -/
/-- C3: for `a`, `b` related by a hasOne association with a declared
inverse, after `a.hasOneProp = b` the inverse side of `b` references `a`
(`b.inverseProp === a` for a hasOne inverse; membership for a hasMany
inverse), and after subsequently clearing `a.hasOneProp` the inverse side
of `b` no longer references `a`. -/
theorem C3_hasOne_inverse_symmetry (reg : Reg) (w : World) (a b : Nat)
    (i KA KB : String) (desc descB : Desc)
    (hab : a ≠ b)
    (_hone : desc.dtype = .one)
    (hinv : desc.inverse = some i)
    (hprev : (w.heap a).one desc.name = none)
    (hKB : resolveKlass reg desc.klass = some KB)
    (hbK : instanceOf reg (w.klassOf b) KB = true)
    (hassoc : assocOf reg (w.klassOf b) i = some descB)
    (hBn : descB.name = i)
    (hKA : resolveKlass reg descB.klass = some KA)
    (haK : instanceOf reg (w.klassOf a) KA = true)
    (hnodup : occurs a ((w.heap b).many i) = false) :
    ∃ w1 w2,
      setHasOneProp reg a desc (some b) w = .ok w1 ∧
      (w1.heap a).one desc.name = some b ∧
      (descB.dtype = .one → (w1.heap b).one i = some a) ∧
      (descB.dtype = .many → occurs a ((w1.heap b).many i) = true) ∧
      setHasOneProp reg a desc none w1 = .ok w2 ∧
      (w2.heap a).one desc.name = none ∧
      (descB.dtype = .one → (w2.heap b).one i = none) ∧
      (descB.dtype = .many → occurs a ((w2.heap b).many i) = false) := by
  have hba : b ≠ a := fun h => hab h.symm
  cases hd : descB.dtype with
  | one =>
      refine ⟨((w.upd a (fun o => o.setOne desc.name (some b))).upd b
                 (fun o => o.setOne descB.name (some a))),
              ((((w.upd a (fun o => o.setOne desc.name (some b))).upd b
                 (fun o => o.setOne descB.name (some a))).upd a
                 (fun o => o.setOne desc.name none)).upd b
                 (fun o => o.setOne descB.name none)),
              ?_, ?_, ?_, ?_, ?_, ?_, ?_, ?_⟩
      · simp [setHasOneProp, hasOneSet, hasOneSetCore, checkAssociatedType,
              hKB, hbK, hinv, hprev, syncCallbacks, inverseAdded,
              World.upd, hassoc, hd, hKA, haK,
              Bind.bind, Except.bind, Pure.pure, Except.pure, Functor.map, Except.map]
      · simp [World.upd, MState.setOne, hba, hab, hBn]
      · intro _
        simp [World.upd, MState.setOne, hBn]
      · intro h
        simp at h
      · simp [setHasOneProp, hasOneSet, hasOneSetCore, checkAssociatedType,
              hinv, syncCallbacks, inverseRemoved,
              World.upd, MState.setOne, hassoc, hd, hab, hba, hBn,
              Bind.bind, Except.bind, Pure.pure, Except.pure, Functor.map, Except.map]
      · simp [World.upd, MState.setOne, hba, hab, hBn]
      · intro _
        simp [World.upd, MState.setOne, hBn]
      · intro h
        simp at h
  | many =>
      refine ⟨((w.upd a (fun o => o.setOne desc.name (some b))).upd b
                 (fun o => o.pushMany descB.name a)),
              ((((w.upd a (fun o => o.setOne desc.name (some b))).upd b
                 (fun o => o.pushMany descB.name a)).upd a
                 (fun o => o.setOne desc.name none)).upd b
                 (fun o => o.eraseMany descB.name a)),
              ?_, ?_, ?_, ?_, ?_, ?_, ?_, ?_⟩
      · simp [setHasOneProp, hasOneSet, hasOneSetCore, checkAssociatedType,
              hKB, hbK, hinv, hprev, syncCallbacks, inverseAdded,
              World.upd, hassoc, hd, hKA, haK, hasManyAddCore,
              Bind.bind, Except.bind, Pure.pure, Except.pure, Functor.map, Except.map]
      · simp [World.upd, MState.setOne, MState.pushMany, hba, hab, hBn]
      · intro h
        simp at h
      · intro _
        simp [World.upd, MState.setOne, MState.pushMany, hba, hab, hBn,
              occurs_append_self]
      · simp [setHasOneProp, hasOneSet, hasOneSetCore, checkAssociatedType,
              hinv, syncCallbacks, inverseRemoved,
              World.upd, MState.setOne, MState.pushMany, hassoc, hd, hab, hba, hBn,
              hasManyRemoveCore, occurs_append_self, eraseFirst_append_self, hnodup,
              Bind.bind, Except.bind, Pure.pure, Except.pure, Functor.map, Except.map]
      · simp [World.upd, MState.setOne, MState.pushMany, hba, hab, hBn]
      · intro h
        simp at h
      · intro _
        simp [World.upd, MState.setOne, MState.pushMany, MState.eraseMany,
              hba, hab, hBn, eraseFirst_append_self, hnodup]

/-- Witness for C3 with a concrete hasOne/hasOne pair. -/
theorem C3_hasOne_inverse_symmetry_witness :
    ((0 : Nat) ≠ 1 ∧ (wAB.heap 0).one descFooBar.name = none ∧
     assocOf regA (wAB.klassOf 1) "foo" = some descBarFoo ∧
     occurs 0 ((wAB.heap 1).many "foo") = false) ∧
    (∃ w1 w2,
      setHasOneProp regA 0 descFooBar (some 1) wAB = .ok w1 ∧
      (w1.heap 0).one descFooBar.name = some 1 ∧
      (descBarFoo.dtype = .one → (w1.heap 1).one "foo" = some 0) ∧
      (descBarFoo.dtype = .many → occurs 0 ((w1.heap 1).many "foo") = true) ∧
      setHasOneProp regA 0 descFooBar none w1 = .ok w2 ∧
      (w2.heap 0).one descFooBar.name = none ∧
      (descBarFoo.dtype = .one → (w2.heap 1).one "foo" = none) ∧
      (descBarFoo.dtype = .many → occurs 0 ((w2.heap 1).many "foo") = false)) :=
  ⟨⟨by decide, by decide, by decide, by decide⟩,
   C3_hasOne_inverse_symmetry regA wAB 0 1 "foo" "FooA" "BarA" descFooBar descBarFoo
     (by decide) (by decide) (by decide) (by decide) (by decide) (by decide)
     (by decide) (by decide) (by decide) (by decide) (by decide)⟩

/- ### C4: hasMany add/remove and duplicate membership -/
/-- C4 (amended): for a hasMany association with a (hasMany) inverse, a
single `add` of `b` (not already present) attaches `b`'s inverse to `f`
exactly once and appends `b` exactly once; `remove` detaches each side
exactly once; but `hasManyAdd` performs no duplicate check, so adding the
same instance again appends it a second time to both sides — duplicate
membership does occur. -/
theorem C4_hasMany_add_remove (reg : Reg) (w : World) (f b : Nat)
    (i KB KF : String) (desc descB : Desc)
    (hfb : f ≠ b)
    (_hmany : desc.dtype = .many)
    (hinv : desc.inverse = some i)
    (hKB : resolveKlass reg desc.klass = some KB)
    (hbK : instanceOf reg (w.klassOf b) KB = true)
    (hassoc : assocOf reg (w.klassOf b) i = some descB)
    (hBty : descB.dtype = .many)
    (hBn : descB.name = i)
    (hKF : resolveKlass reg descB.klass = some KF)
    (hfK : instanceOf reg (w.klassOf f) KF = true)
    (hb0 : occurs b ((w.heap f).many desc.name) = false)
    (hf0 : occurs f ((w.heap b).many i) = false) :
    ∃ w1, addAssoc reg f desc [b] w = .ok w1 ∧
      countOcc f ((w1.heap b).many i) = 1 ∧
      countOcc b ((w1.heap f).many desc.name) = 1 ∧
      (∃ w2, addAssoc reg f desc [b] w1 = .ok w2 ∧
        countOcc b ((w2.heap f).many desc.name) = 2 ∧
        countOcc f ((w2.heap b).many i) = 2) ∧
      (∃ w3, removeAssoc reg f desc [b] w1 = .ok w3 ∧
        occurs f ((w3.heap b).many i) = false ∧
        occurs b ((w3.heap f).many desc.name) = false) := by
  have hbf : b ≠ f := fun h => hfb h.symm
  refine ⟨((w.upd b (fun o => o.pushMany descB.name f)).upd f
             (fun o => o.pushMany desc.name b)), ?_, ?_, ?_, ?_, ?_⟩
  · simp [addAssoc, hasManyAdd, hasManyAddCore, checkAssociatedType,
          hKB, hbK, hinv, syncCallbacks, inverseAdded, hassoc, hBty,
          World.upd, hKF, hfK,
          Bind.bind, Except.bind, Pure.pure, Except.pure, Functor.map, Except.map]
  · simp [World.upd, MState.pushMany, hbf, hfb, hBn, countOcc_append,
          countOcc_of_occurs_false _ _ hf0, countOcc]
  · simp [World.upd, MState.pushMany, hbf, hfb, countOcc_append,
          countOcc_of_occurs_false _ _ hb0, countOcc]
  · refine ⟨((((w.upd b (fun o => o.pushMany descB.name f)).upd f
               (fun o => o.pushMany desc.name b)).upd b
               (fun o => o.pushMany descB.name f)).upd f
               (fun o => o.pushMany desc.name b)), ?_, ?_, ?_⟩
    · simp [addAssoc, hasManyAdd, hasManyAddCore, checkAssociatedType,
            hKB, hbK, hinv, syncCallbacks, inverseAdded, hassoc, hBty,
            World.upd, hKF, hfK,
            Bind.bind, Except.bind, Pure.pure, Except.pure, Functor.map, Except.map]
    · simp [World.upd, MState.pushMany, hbf, hfb, countOcc_append,
            countOcc_of_occurs_false _ _ hb0, countOcc]
    · simp [World.upd, MState.pushMany, hbf, hfb, hBn, countOcc_append,
            countOcc_of_occurs_false _ _ hf0, countOcc]
  · refine ⟨((((w.upd b (fun o => o.pushMany descB.name f)).upd f
               (fun o => o.pushMany desc.name b)).upd b
               (fun o => o.eraseMany descB.name f)).upd f
               (fun o => o.eraseMany desc.name b)), ?_, ?_, ?_⟩
    · simp [removeAssoc, hasManyRemove, hasManyRemoveCore,
            hinv, syncCallbacks, inverseRemoved, hassoc, hBty,
            World.upd, MState.pushMany, hbf, hfb, hBn, occurs_append_self,
            Bind.bind, Except.bind, Pure.pure, Except.pure, Functor.map, Except.map]
    · simp [World.upd, MState.pushMany, MState.eraseMany, hbf, hfb, hBn,
            eraseFirst_append_self _ _ hf0, hf0]
    · simp [World.upd, MState.pushMany, MState.eraseMany, hbf, hfb,
            eraseFirst_append_self _ _ hb0, hb0]

/-- Counterexample for C4 as stated: calling the generated add method twice
with the same instance leaves the hasMany collection (and the inverse
collection) holding that instance twice — duplicate membership occurs. -/
theorem C4_hasMany_add_remove_cx :
    ((addAssoc regM 0 descFooBars [1] wM).toOption.bind (fun w1 =>
       (addAssoc regM 0 descFooBars [1] w1).toOption.map (fun w2 =>
         (countOcc 1 ((w2.heap 0).many "bars"), countOcc 0 ((w2.heap 1).many "foos")))))
      = some (2, 2) := by
  decide

/-- Witness for the amended C4 on the concrete hasMany/hasMany pair. -/
theorem C4_hasMany_add_remove_witness :
    ((0 : Nat) ≠ 1 ∧
     occurs 1 ((wM.heap 0).many descFooBars.name) = false ∧
     occurs 0 ((wM.heap 1).many "foos") = false) ∧
    (∃ w1, addAssoc regM 0 descFooBars [1] wM = .ok w1 ∧
      countOcc 0 ((w1.heap 1).many "foos") = 1 ∧
      countOcc 1 ((w1.heap 0).many descFooBars.name) = 1 ∧
      (∃ w2, addAssoc regM 0 descFooBars [1] w1 = .ok w2 ∧
        countOcc 1 ((w2.heap 0).many descFooBars.name) = 2 ∧
        countOcc 0 ((w2.heap 1).many "foos") = 2) ∧
      (∃ w3, removeAssoc regM 0 descFooBars [1] w1 = .ok w3 ∧
        occurs 0 ((w3.heap 1).many "foos") = false ∧
        occurs 1 ((w3.heap 0).many descFooBars.name) = false)) :=
  ⟨⟨by decide, by decide, by decide⟩,
   C4_hasMany_add_remove regM wM 0 1 "foos" "BarM" "FooM" descFooBars descBarFoos
     (by decide) (by decide) (by decide) (by decide) (by decide) (by decide)
     (by decide) (by decide) (by decide) (by decide) (by decide) (by decide)⟩

/- ### Loop lemmas for `hasManySet` -/
theorem checkAllTypes_ok (reg : Reg) (desc : Desc) (K : String) (l : List Nat)
    (w : World) (hK : resolveKlass reg desc.klass = some K)
    (h : ∀ m ∈ l, instanceOf reg (w.klassOf m) K = true) :
    checkAllTypes reg desc l w = .ok () := by
  induction l with
  | nil => rfl
  | cons m rest ih =>
      have hm := h m (by simp)
      simp [checkAllTypes, checkAssociatedType, hK, hm,
            Bind.bind, Except.bind]
      exact ih (fun m' hm' => h m' (by simp [hm']))

theorem checkAllTypes_err (reg : Reg) (desc : Desc) (K : String) (l : List Nat)
    (w : World) (hK : resolveKlass reg desc.klass = some K)
    (h : ∃ m ∈ l, instanceOf reg (w.klassOf m) K = false) :
    checkAllTypes reg desc l w = .error (.typeMismatch, w) := by
  induction l with
  | nil => simp at h
  | cons m rest ih =>
      by_cases hm : instanceOf reg (w.klassOf m) K = true
      · have hrest : ∃ m' ∈ rest, instanceOf reg (w.klassOf m') K = false := by
          obtain ⟨m', hmem, hbad⟩ := h
          rcases List.mem_cons.mp hmem with h1 | h2
          · rw [h1] at hbad; rw [hbad] at hm; cases hm
          · exact ⟨m', h2, hbad⟩
        simp [checkAllTypes, checkAssociatedType, hK, hm,
              Bind.bind, Except.bind]
        exact ih hrest
      · simp [checkAllTypes, checkAssociatedType, hK, hm,
              Bind.bind, Except.bind]

theorem removeEach_spec (reg : Reg) (inv : String) (f : Nat) (l : List Nat)
    (dB : Nat → Desc) (w : World)
    (h : ∀ m ∈ l, assocOf reg (w.klassOf m) inv = some (dB m) ∧
          (dB m).dtype = .one ∧ (dB m).name = inv) :
    ∃ w', removeEach reg inv f l w = .ok w' ∧
      w'.klassOf = w.klassOf ∧
      (∀ x, x ∉ l → w'.heap x = w.heap x) ∧
      (∀ m ∈ l, (w'.heap m).one inv = none) := by
  induction l generalizing w with
  | nil => exact ⟨w, rfl, rfl, fun x _ => rfl, by simp⟩
  | cons m rest ih =>
      obtain ⟨ha, hty, hname⟩ := h m (by simp)
      have hstep : inverseRemoved reg m inv f w =
          .ok (w.upd m (fun o => o.setOne inv none)) := by
        simp [inverseRemoved, ha, hty, hasOneSetCore, hname,
              Bind.bind, Except.bind, Pure.pure, Except.pure]
      have hrest : ∀ m' ∈ rest,
          assocOf reg ((w.upd m (fun o => o.setOne inv none)).klassOf m') inv = some (dB m') ∧
          (dB m').dtype = .one ∧ (dB m').name = inv := by
        intro m' hm'
        rw [World.upd_klassOf]
        exact h m' (by simp [hm'])
      obtain ⟨w', heq, hkl, hout, hin⟩ := ih _ hrest
      refine ⟨w', ?_, ?_, ?_, ?_⟩
      · simp [removeEach, hstep, Bind.bind, Except.bind]
        exact heq
      · rw [hkl, World.upd_klassOf]
      · intro x hx
        have hxm : x ≠ m := fun hh => hx (by simp [hh])
        have hxr : x ∉ rest := fun hh => hx (by simp [hh])
        rw [hout x hxr, World.heap_upd_ne _ _ _ _ hxm]
      · intro m' hm'
        rcases List.mem_cons.mp hm' with h1 | h2
        · subst h1
          by_cases hmr : m' ∈ rest
          · exact hin m' hmr
          · rw [hout m' hmr, World.heap_upd_self]
            simp [MState.setOne]
        · exact hin m' h2

theorem addEach_spec (reg : Reg) (inv : String) (f : Nat) (l : List Nat)
    (dB : Nat → Desc) (Km : Nat → String) (w : World)
    (h : ∀ m ∈ l, assocOf reg (w.klassOf m) inv = some (dB m) ∧
          (dB m).dtype = .one ∧ (dB m).name = inv ∧
          resolveKlass reg (dB m).klass = some (Km m) ∧
          instanceOf reg (w.klassOf f) (Km m) = true) :
    ∃ w', addEach reg inv f l w = .ok w' ∧
      w'.klassOf = w.klassOf ∧
      (∀ x, x ∉ l → w'.heap x = w.heap x) ∧
      (∀ m ∈ l, (w'.heap m).one inv = some f) := by
  induction l generalizing w with
  | nil => exact ⟨w, rfl, rfl, fun x _ => rfl, by simp⟩
  | cons m rest ih =>
      obtain ⟨ha, hty, hname, hres, hinst⟩ := h m (by simp)
      have hstep : inverseAdded reg m inv f w =
          .ok (w.upd m (fun o => o.setOne inv (some f))) := by
        simp [inverseAdded, ha, hty, hasOneSetCore, hname, checkAssociatedType,
              hres, hinst, Bind.bind, Except.bind, Pure.pure, Except.pure]
      have hrest : ∀ m' ∈ rest,
          assocOf reg ((w.upd m (fun o => o.setOne inv (some f))).klassOf m') inv
            = some (dB m') ∧
          (dB m').dtype = .one ∧ (dB m').name = inv ∧
          resolveKlass reg (dB m').klass = some (Km m') ∧
          instanceOf reg ((w.upd m (fun o => o.setOne inv (some f))).klassOf f) (Km m')
            = true := by
        intro m' hm'
        rw [World.upd_klassOf]
        exact h m' (by simp [hm'])
      obtain ⟨w', heq, hkl, hout, hin⟩ := ih _ hrest
      refine ⟨w', ?_, ?_, ?_, ?_⟩
      · simp [addEach, hstep, Bind.bind, Except.bind]
        exact heq
      · rw [hkl, World.upd_klassOf]
      · intro x hx
        have hxm : x ≠ m := fun hh => hx (by simp [hh])
        have hxr : x ∉ rest := fun hh => hx (by simp [hh])
        rw [hout x hxr, World.heap_upd_ne _ _ _ _ hxm]
      · intro m' hm'
        rcases List.mem_cons.mp hm' with h1 | h2
        · subst h1
          by_cases hmr : m' ∈ rest
          · exact hin m' hmr
          · rw [hout m' hmr, World.heap_upd_self]
            simp [MState.setOne]
        · exact hin m' h2

/- ### C5: hasMany wholesale replacement -/
/-- C5: `hasManySet` type-checks every element of the new array before any
mutation, so if some element fails the check the assignment throws with the
world exactly as it was (collection and all inverse sides unmodified); on
success the collection is replaced wholesale, the inverses of removed
members are detached and the inverses of all new members are attached
(shown here for a hasOne inverse). -/
theorem C5_hasManySet_replace (reg : Reg) (w : World) (f : Nat) (i K : String)
    (desc : Desc) (a : List Nat) (dB : Nat → Desc) (Km : Nat → String)
    (hinv : desc.inverse = some i)
    (hK : resolveKlass reg desc.klass = some K)
    (hfa : f ∉ a)
    (hfprev : f ∉ (w.heap f).many desc.name)
    (hcoh : ∀ m ∈ ((w.heap f).many desc.name ++ a),
        assocOf reg (w.klassOf m) i = some (dB m) ∧ (dB m).dtype = .one ∧
        (dB m).name = i ∧ resolveKlass reg (dB m).klass = some (Km m) ∧
        instanceOf reg (w.klassOf f) (Km m) = true) :
    ((∃ m ∈ a, instanceOf reg (w.klassOf m) K = false) →
       hasManySet reg f desc a w = .error (.typeMismatch, w)) ∧
    ((∀ m ∈ a, instanceOf reg (w.klassOf m) K = true) →
       ∃ w', hasManySet reg f desc a w = .ok w' ∧
         (w'.heap f).many desc.name = a ∧
         (∀ m ∈ a, (w'.heap m).one i = some f) ∧
         (∀ m, m ∈ (w.heap f).many desc.name → m ∉ a → (w'.heap m).one i = none)) := by
  constructor
  · intro hbad
    have hc := checkAllTypes_err reg desc K a w hK hbad
    simp [hasManySet, hc, Bind.bind, Except.bind]
  · intro hok
    have hc := checkAllTypes_ok reg desc K a w hK hok
    obtain ⟨w1, he1, hk1, hout1, hin1⟩ :=
      removeEach_spec reg i f ((w.heap f).many desc.name) dB w
        (fun m hm =>
          ⟨(hcoh m (List.mem_append_left _ hm)).1,
           (hcoh m (List.mem_append_left _ hm)).2.1,
           (hcoh m (List.mem_append_left _ hm)).2.2.1⟩)
    obtain ⟨w2, he2, hk2, hout2, hin2⟩ :=
      addEach_spec reg i f a dB Km w1
        (fun m hm => by
          rw [hk1]
          exact ⟨(hcoh m (List.mem_append_right _ hm)).1,
                 (hcoh m (List.mem_append_right _ hm)).2.1,
                 (hcoh m (List.mem_append_right _ hm)).2.2.1,
                 (hcoh m (List.mem_append_right _ hm)).2.2.2.1,
                 (hcoh m (List.mem_append_right _ hm)).2.2.2.2⟩)
    refine ⟨w2.upd f (fun o => o.setManyList desc.name a), ?_, ?_, ?_, ?_⟩
    · simp [hasManySet, hc, hinv, he1, he2, Bind.bind, Except.bind,
            Pure.pure, Except.pure]
    · rw [World.heap_upd_self]
      simp [MState.setManyList]
    · intro m hm
      have hmf : m ≠ f := fun hh => hfa (hh ▸ hm)
      rw [World.heap_upd_ne _ _ _ _ hmf]
      exact hin2 m hm
    · intro m hmp hma
      have hmf : m ≠ f := fun hh => hfprev (hh ▸ hmp)
      rw [World.heap_upd_ne _ _ _ _ hmf, hout2 m hma]
      exact hin1 m hmp

/-- Witness for C5: replacing `bars = [1]` with `[2]` detaches Bar 1's
inverse and attaches Bar 2's. -/
theorem C5_hasManySet_replace_witness :
    ((0 : Nat) ∉ ([2] : List Nat) ∧
     (0 : Nat) ∉ (wS.heap 0).many descFooBarsS.name ∧
     resolveKlass regS descFooBarsS.klass = some "BarS" ∧
     (∀ m ∈ ([2] : List Nat), instanceOf regS (wS.klassOf m) "BarS" = true)) ∧
    (∃ w', hasManySet regS 0 descFooBarsS [2] wS = .ok w' ∧
      (w'.heap 0).many descFooBarsS.name = [2] ∧
      (∀ m ∈ ([2] : List Nat), (w'.heap m).one "foo" = some 0) ∧
      (∀ m, m ∈ (wS.heap 0).many descFooBarsS.name → m ∉ ([2] : List Nat) →
        (w'.heap m).one "foo" = none)) :=
  ⟨⟨by decide, by decide, by decide, by decide⟩,
   (C5_hasManySet_replace regS wS 0 "foo" "BarS" descFooBarsS [2]
     (fun _ => descBarFooS) (fun _ => "FooS")
     (by decide) (by decide) (by decide) (by decide) (by decide)).2 (by decide)⟩

/- ### Payload lookup lemmas -/
theorem plookupLast_cons_none {α : Type} (k0 k : String) (v0 : α)
    (rest : List (String × α)) :
    plookupLast ((k0, v0) :: rest) k = none ↔
      plookupLast rest k = none ∧ ¬ k0 = k := by
  cases h : plookupLast rest k with
  | none =>
      by_cases hk : k0 = k <;> simp [plookupLast, h, hk]
  | some v =>
      simp [plookupLast, h]

theorem plookupLast_cons_some {α : Type} (k0 k : String) (v0 v : α)
    (rest : List (String × α)) :
    plookupLast ((k0, v0) :: rest) k = some v ↔
      (plookupLast rest k = some v ∨
       (plookupLast rest k = none ∧ k0 = k ∧ v0 = v)) := by
  cases h : plookupLast rest k with
  | none =>
      by_cases hk : k0 = k <;> simp [plookupLast, h, hk]
  | some v' =>
      simp [plookupLast, h]

theorem lookupBinding_cons_self (c : String) (i : JSValue) (r : Nat)
    (rest : List ((String × JSValue) × Nat)) :
    lookupBinding (((c, i), r) :: rest) c i = some r := by
  simp [lookupBinding]

/- ### The attribute-assignment loop of `Model.load` -/
theorem setProps_attrs (reg : Reg) (cls : ClassDef) (r : Nat) :
    ∀ (l : Payload) (w : World),
    (∀ kv ∈ l, (cls.attrByName kv.1).isSome = true) →
    ∃ w', setProps reg cls r l w = .ok w' ∧
      w'.klassOf = w.klassOf ∧ w'.idmap = w.idmap ∧ w'.next = w.next ∧
      (∀ x, (w'.heap x).id = (w.heap x).id) ∧
      (∀ k, (plookupLast l k = none → (w'.heap r).slots k = (w.heap r).slots k) ∧
            (∀ v conv, plookupLast l k = some v → cls.attrByName k = some conv →
              (w'.heap r).slots k = conv v)) := by
  intro l
  induction l with
  | nil =>
      intro w _
      refine ⟨w, rfl, rfl, rfl, rfl, fun x => rfl, fun k => ⟨fun _ => rfl, ?_⟩⟩
      intro v conv hv _
      simp [plookupLast] at hv
  | cons kv rest ih =>
      intro w h
      obtain ⟨conv0, hc0⟩ := Option.isSome_iff_exists.mp (h kv (by simp))
      have hstep : setProp reg cls r kv.1 kv.2 w =
          .ok (w.upd r (fun o => o.setAttr kv.1 (conv0 kv.2) kv.2)) := by
        simp [setProp, hc0]
      obtain ⟨w', heq, hkl, hmap, hnext, hid, hsl⟩ :=
        ih (w.upd r (fun o => o.setAttr kv.1 (conv0 kv.2) kv.2))
           (fun kv' h' => h kv' (by simp [h']))
      refine ⟨w', ?_, ?_, ?_, ?_, ?_, ?_⟩
      · simp [setProps, hstep, Bind.bind, Except.bind]
        exact heq
      · rw [hkl, World.upd_klassOf]
      · rw [hmap, World.upd_idmap]
      · rw [hnext, World.upd_next]
      · intro x
        rw [hid x]
        by_cases hx : x = r
        · subst hx
          rw [World.heap_upd_self]
          simp [MState.setAttr]
        · rw [World.heap_upd_ne _ _ _ _ hx]
      · intro k
        constructor
        · intro hnone
          obtain ⟨hrest, hke⟩ := (plookupLast_cons_none kv.1 k kv.2 rest).mp hnone
          rw [(hsl k).1 hrest, World.heap_upd_self]
          have hke' : ¬ k = kv.1 := fun hh => hke hh.symm
          simp [MState.setAttr, hke']
        · intro v conv hv hconv
          rcases (plookupLast_cons_some kv.1 k kv.2 v rest).mp hv with
            hsome | ⟨hrest, hke, hveq⟩
          · exact (hsl k).2 v conv hsome hconv
          · subst hveq
            have hcv : conv = conv0 := by
              rw [← hke] at hconv
              rw [hconv] at hc0
              exact Option.some_inj.mp hc0
            subst hcv
            rw [(hsl k).1 hrest, World.heap_upd_self]
            simp [MState.setAttr, hke.symm]

/- ### C1: load consults the identity map; second load overwrites -/
theorem truthy_undef : truthy .undef = false := rfl

theorem allocModel_fst (cls : ClassDef) (w : World) : (allocModel cls w).1 = w.next := rfl

theorem Model.load_attrs_ok (reg : Reg) (cls : ClassDef) (p : Payload) (w : World)
    (idv : JSValue)
    (hid : plookup p "id" = some idv)
    (ht : truthy idv = true)
    (hk : ∀ kv ∈ p, kv.1 = "id" ∨ (cls.attrByName kv.1).isSome = true) :
    ∃ r w1, Model.load reg cls p w = .ok (r, w1) ∧
      IdMap.get w1 cls.name idv = some r ∧
      (∀ r0, IdMap.get w cls.name idv = some r0 → r = r0) ∧
      (∀ k v conv, cls.attrByName k = some conv →
        plookupLast (p.filter (fun kv => !(kv.1 = "id"))) k = some v →
        (w1.heap r).slots k = conv v) := by
  have hkf : ∀ kv ∈ p.filter (fun kv => !(kv.1 = "id")),
      (cls.attrByName kv.1).isSome = true := by
    intro kv hkv
    have hm := List.mem_filter.mp hkv
    rcases hk kv hm.1 with hI | hA
    · exfalso
      have := hm.2
      simp [hI] at this
    · exact hA
  cases hm : IdMap.get w cls.name idv with
  | some r =>
      obtain ⟨w1', hsp, hkl, hmap, hnext, hidp, hsl⟩ :=
        setProps_attrs reg cls r (p.filter (fun kv => !(kv.1 = "id"))) w hkf
      by_cases hundef : (w1'.heap r).id = .undef
      · have hguard : truthy ((w1'.heap r).id) = false := by
          rw [hundef]; rfl
        refine ⟨r, (IdMap.insert (w1'.upd r (fun o => { o with id := idv })) r).upd r
            (fun o => { o with sourceState := some .loadedS, isBusy := false }),
            ?_, ?_, ?_, ?_⟩
        · simp [Model.load, hid, ht, hm, hsp, hundef, Model.setId, hguard, truthy_undef,
                Bind.bind, Except.bind, Pure.pure, Except.pure]
        · show lookupBinding _ cls.name idv = some r
          simp only [World.upd_idmap, IdMap.insert, World.upd_klassOf,
                     World.heap_upd_self]
          by_cases hcn : w1'.klassOf r = cls.name
          · simp [lookupBinding, hcn]
          · simp only [lookupBinding]
            rw [if_neg (by simp [hcn])]
            rw [hmap]
            exact hm
        · intro r0 h0
          exact Option.some_inj.mp h0
        · intro k v conv hconv hv
          have h1 : ((IdMap.insert (w1'.upd r (fun o => { o with id := idv })) r).upd r
              (fun o => { o with sourceState := some .loadedS, isBusy := false })).heap r
              = { (w1'.heap r) with id := idv, sourceState := some .loadedS, isBusy := false } := by
            simp [IdMap.insert, World.upd]
          rw [h1]
          exact hsl k |>.2 v conv hv hconv
      · refine ⟨r, w1'.upd r
            (fun o => { o with sourceState := some .loadedS, isBusy := false }),
            ?_, ?_, ?_, ?_⟩
        · simp [Model.load, hid, ht, hm, hsp, hundef,
                Bind.bind, Except.bind, Pure.pure, Except.pure]
        · show lookupBinding _ cls.name idv = some r
          simp only [World.upd_idmap]
          rw [hmap]
          exact hm
        · intro r0 h0
          exact Option.some_inj.mp h0
        · intro k v conv hconv hv
          have h1 : (w1'.upd r
              (fun o => { o with sourceState := some .loadedS, isBusy := false })).heap r
              = { (w1'.heap r) with sourceState := some .loadedS, isBusy := false } := by
            simp [World.upd]
          rw [h1]
          exact hsl k |>.2 v conv hv hconv
  | none =>
      obtain ⟨w1', hsp, hkl, hmap, hnext, hidp, hsl⟩ :=
        setProps_attrs reg cls (w.next) (p.filter (fun kv => !(kv.1 = "id")))
          (allocModel cls w).2 hkf
      have hundef : (w1'.heap w.next).id = .undef := by
        rw [hidp w.next]
        simp [allocModel, MState.blank]
      have hguard : truthy ((w1'.heap w.next).id) = false := by
        rw [hundef]; rfl
      have hkn : w1'.klassOf w.next = cls.name := by
        rw [hkl]
        simp [allocModel]
      refine ⟨w.next, (IdMap.insert (w1'.upd w.next (fun o => { o with id := idv })) w.next).upd w.next
          (fun o => { o with sourceState := some .loadedS, isBusy := false }),
          ?_, ?_, ?_, ?_⟩
      · simp [Model.load, hid, ht, hm, hsp, hundef, Model.setId, hguard, truthy_undef,
              allocModel_fst, Bind.bind, Except.bind, Pure.pure, Except.pure]
      · show lookupBinding _ cls.name idv = some w.next
        simp only [World.upd_idmap, IdMap.insert, World.upd_klassOf,
                   World.heap_upd_self]
        simp [lookupBinding, hkn]
      · intro r0 h0
        simp at h0
      · intro k v conv hconv hv
        have h1 : ((IdMap.insert (w1'.upd w.next (fun o => { o with id := idv })) w.next).upd w.next
            (fun o => { o with sourceState := some .loadedS, isBusy := false })).heap w.next
            = { (w1'.heap w.next) with id := idv, sourceState := some .loadedS, isBusy := false } := by
          simp [IdMap.insert, World.upd]
        rw [h1]
        exact hsl k |>.2 v conv hv hconv

/-- C1: loading two payloads bearing the same id returns the same instance
reference both times — the identity map is consulted before creating an
instance — and every attribute value given in the second payload ends up
(coerced) in the instance's slot, overwriting the first call's value. -/
theorem C1_load_identity_overwrite (reg : Reg) (cls : ClassDef) (w : World)
    (p1 p2 : Payload) (idv : JSValue)
    (h1 : plookup p1 "id" = some idv)
    (h2 : plookup p2 "id" = some idv)
    (ht : truthy idv = true)
    (hk1 : ∀ kv ∈ p1, kv.1 = "id" ∨ (cls.attrByName kv.1).isSome = true)
    (hk2 : ∀ kv ∈ p2, kv.1 = "id" ∨ (cls.attrByName kv.1).isSome = true) :
    ∃ r w1 w2,
      Model.load reg cls p1 w = .ok (r, w1) ∧
      Model.load reg cls p2 w1 = .ok (r, w2) ∧
      (∀ k v conv, cls.attrByName k = some conv →
        plookupLast (p2.filter (fun kv => !(kv.1 = "id"))) k = some v →
        (w2.heap r).slots k = conv v) := by
  obtain ⟨r, w1, hL1, hget1, _, _⟩ := Model.load_attrs_ok reg cls p1 w idv h1 ht hk1
  obtain ⟨r2, w2, hL2, _, huniq, hslots⟩ :=
    Model.load_attrs_ok reg cls p2 w1 idv h2 ht hk2
  have hr : r2 = r := huniq r hget1
  subst hr
  exact ⟨r2, w1, w2, hL1, hL2, hslots⟩

/-- Witness for C1: `BasicModel.load({id: 1, str: 'a'})` twice, the second
time with `str: 'b'`: same reference, `str` ends up `'b'`. -/
theorem C1_load_identity_overwrite_witness :
    (plookup ([("id", JSValue.num 1), ("str", JSValue.str "a")] : Payload) "id"
       = some (JSValue.num 1) ∧
     truthy (JSValue.num 1) = true ∧
     (∀ kv ∈ ([("id", JSValue.num 1), ("str", JSValue.str "b")] : Payload),
        kv.1 = "id" ∨ (BasicModel.attrByName kv.1).isSome = true)) ∧
    (∃ r w1 w2,
      Model.load regBasic BasicModel [("id", JSValue.num 1), ("str", JSValue.str "a")]
        World.init = .ok (r, w1) ∧
      Model.load regBasic BasicModel [("id", JSValue.num 1), ("str", JSValue.str "b")]
        w1 = .ok (r, w2) ∧
      (∀ k v conv, BasicModel.attrByName k = some conv →
        plookupLast (([("id", JSValue.num 1), ("str", JSValue.str "b")] : Payload).filter
          (fun kv => !(kv.1 = "id"))) k = some v →
        (w2.heap r).slots k = conv v)) :=
  ⟨⟨by decide, by decide, by decide⟩,
   C1_load_identity_overwrite regBasic BasicModel World.init
     [("id", JSValue.num 1), ("str", JSValue.str "a")]
     [("id", JSValue.num 1), ("str", JSValue.str "b")]
     (JSValue.num 1) (by decide) (by decide) (by decide) (by decide) (by decide)⟩

/-- C2: every association payload form of spec §4.5 step 4 resolves to
model instances with inverses wired: (a) a nested raw payload object is
recursively loaded and the hasOne side and its hasMany inverse are wired;
(b) a bare id already in the identity map resolves to the existing
instance; (c) an unseen bare id produces an EMPTY placeholder carrying the
id, still wired; (d)/(e) `<name>Id` and `<name>_id` foreign-key fields
populate a hasOne association when its own key is absent; (f) the
association's own key wins over the foreign-key field when both are
present; (g) a hasMany array of nested payloads loads each member and
wires each inverse; (h) reloading with a smaller hasMany array detaches
the members that disappeared; (i)/(j) `<singular>Ids` and
`<singular>_ids` id-list fields populate a hasMany association; (k) a
mixed array of seen ids, nested payloads and unseen ids yields LOADED,
LOADED and EMPTY members in payload order, each with its inverse wired. -/
theorem C2_load_association_forms :
    ((runLoad PostCls
        [("id", .v (.num 184)), ("title", .v (.str "the title")),
         ("author", .obj [("id", .v (.num 9)), ("first", .v (.str "Homer"))])]
        runStart).map (fun rw =>
          (rw.1, (rw.2.heap rw.1).one "author",
           (rw.2.heap 1).slots "first", (rw.2.heap 1).many "posts"))
      = some (0, some 1, .str "Homer", [0])) ∧
    ((runLoad PostCls
        [("id", .v (.num 184)), ("title", .v (.str "the title")),
         ("author", .obj [("id", .v (.num 9)), ("first", .v (.str "Homer"))])]
        runStart).map (fun rw =>
          ((rw.2.heap 1).sourceState, (rw.2.heap rw.1).sourceState,
           IdMap.get rw.2 "Author" (.num 9)))
      = some (some .loadedS, some .loadedS, some 1)) ∧
    ((runLoad PostCls [("id", .v (.num 185)), ("author", .v (.num 11))]
        (runLoad AuthorCls [("id", .v (.num 11)), ("first", .v (.str "Bar"))] runStart)).map
        (fun rw => (rw.1, (rw.2.heap rw.1).one "author", (rw.2.heap 0).many "posts"))
      = some (1, some 0, [1])) ∧
    ((runLoad PostCls [("id", .v (.num 186)), ("author", .v (.num 12))] runStart).map
        (fun rw => (rw.1, (rw.2.heap rw.1).one "author", (rw.2.heap 1).id,
                    (rw.2.heap 1).sourceState, (rw.2.heap 1).many "posts"))
      = some (0, some 1, .num 12, some .emptyS, [0])) ∧
    ((runLoad PostCls [("id", .v (.num 187)), ("authorId", .v (.num 13))]
        (runLoad AuthorCls [("id", .v (.num 13))] runStart)).map
        (fun rw => (rw.1, (rw.2.heap rw.1).one "author", (rw.2.heap 0).many "posts"))
      = some (1, some 0, [1])) ∧
    ((runLoad PostCls [("id", .v (.num 188)), ("author_id", .v (.num 14))]
        (runLoad AuthorCls [("id", .v (.num 14))] runStart)).map
        (fun rw => (rw.1, (rw.2.heap rw.1).one "author", (rw.2.heap 0).many "posts"))
      = some (1, some 0, [1])) ∧
    ((runLoad PostCls
        [("id", .v (.num 189)), ("author", .v (.num 20)), ("authorId", .v (.num 21))]
        runStart).map
        (fun rw => (rw.1, (rw.2.heap rw.1).one "author",
                    IdMap.get rw.2 "Author" (.num 20), IdMap.get rw.2 "Author" (.num 21)))
      = some (0, some 1, some 1, none)) ∧
    ((runLoad PostCls
        [("id", .v (.num 200)), ("title", .v (.str "t")),
         ("tags", .arr [.obj [("id", .v (.num 10)), ("name", .v (.str "tag a"))],
                        .obj [("id", .v (.num 11)), ("name", .v (.str "tag b"))]])]
        runStart).map
        (fun rw => (rw.1, (rw.2.heap rw.1).many "tags", (rw.2.heap 1).many "posts",
                    (rw.2.heap 2).many "posts", (rw.2.heap 1).slots "name"))
      = some (0, [1, 2], [0], [0], .str "tag a")) ∧
    ((runLoad PostCls [("id", .v (.num 150)), ("tags", .arr [.v (.num 13)])]
        (runLoad PostCls [("id", .v (.num 150)), ("tags", .arr [.v (.num 12), .v (.num 13)])]
          (runLoad TagCls [("id", .v (.num 13))]
            (runLoad TagCls [("id", .v (.num 12))] runStart)))).map
        (fun rw => (rw.1, (rw.2.heap rw.1).many "tags",
                    (rw.2.heap 0).many "posts", (rw.2.heap 1).many "posts"))
      = some (2, [1], [], [2])) ∧
    ((runLoad PostCls [("id", .v (.num 154)), ("tagIds", .arr [.v (.num 44), .v (.num 45)])]
        (runLoad TagCls [("id", .v (.num 45))]
          (runLoad TagCls [("id", .v (.num 44))] runStart))).map
        (fun rw => (rw.1, (rw.2.heap rw.1).many "tags",
                    (rw.2.heap 0).many "posts", (rw.2.heap 1).many "posts"))
      = some (2, [0, 1], [2], [2])) ∧
    ((runLoad PostCls [("id", .v (.num 155)), ("tag_ids", .arr [.v (.num 46), .v (.num 47)])]
        (runLoad TagCls [("id", .v (.num 47))]
          (runLoad TagCls [("id", .v (.num 46))] runStart))).map
        (fun rw => (rw.1, (rw.2.heap rw.1).many "tags",
                    (rw.2.heap 0).many "posts", (rw.2.heap 1).many "posts"))
      = some (2, [0, 1], [2], [2])) ∧
    ((runLoad PostCls
        [("id", .v (.num 156)),
         ("tags", .arr [.v (.num 48), .obj [("id", .v (.num 49)), ("name", .v (.str "foo"))],
                        .v (.num 50)])]
        (runLoad TagCls [("id", .v (.num 48)), ("name", .v (.str "blah"))] runStart)).map
        (fun rw => (rw.1, (rw.2.heap rw.1).many "tags",
                    (rw.2.heap 0).sourceState, (rw.2.heap 2).sourceState,
                    (rw.2.heap 3).sourceState))
      = some (1, [0, 2, 3], some .loadedS, some .loadedS, some .emptyS)) ∧
    ((runLoad PostCls
        [("id", .v (.num 156)),
         ("tags", .arr [.v (.num 48), .obj [("id", .v (.num 49)), ("name", .v (.str "foo"))],
                        .v (.num 50)])]
        (runLoad TagCls [("id", .v (.num 48)), ("name", .v (.str "blah"))] runStart)).map
        (fun rw => ((rw.2.heap 0).many "posts", (rw.2.heap 2).many "posts",
                    (rw.2.heap 3).many "posts"))
      = some ([1], [1], [1])) := by
  refine ⟨?_, ?_, ?_, ?_, ?_, ?_, ?_, ?_, ?_, ?_, ?_, ?_, ?_⟩ <;> decide
